import Mathlib

/-!
Verification development for the `deep_avsr` demo pipeline
(`audio_visual/demo.py`) and its CTC decoding subsystem.

The demo script (present in the sources) orchestrates: configuration
checks, optional language-model loading, a walk over the demo directory,
per-file filename parsing, preprocessing, batching via `collate_fn`,
a neural-network forward pass, CTC decoding (greedy or beam search),
index-to-character postprocessing and CSV emission.

The decoders (`utils/decoders.py`), the batching helper
(`data/utils.py::collate_fn`) and the configuration (`config.py`) are not
among the sources; they are modelled from the specification, and each such
definition carries a doc comment starting with `Modelled from the spec:`.
Probability arithmetic is carried out exactly over `ℚ`, in the linear
(probability-mass) domain: the spec's log-probability accumulation becomes
multiplication and its log-sum-exp beam merging becomes addition, which is
the exact correspondence under `exp`.
-/

namespace DeepAVSR

/-- A posterior matrix entry as produced by the network: either a NaN
(a non-number, possible in floating point output) or an exact rational
probability value. -/
inductive PVal where
  | nan : PVal
  | val (q : ℚ) : PVal
deriving DecidableEq, Repr

/-- Numeric reading of an entry; NaN is sent to 0, but every use is guarded
by validity checking which rejects NaN entries first. -/
def PVal.toQ : PVal → ℚ
  | .nan => 0
  | .val q => q

/-- Sum of a row of posterior entries (NaN contributing its `toQ` reading;
validation rejects rows with NaN before the sum is ever relied upon). -/
def rowSum (row : List PVal) : ℚ :=
  (row.map PVal.toQ).sum

/-- Modelled from the spec: the tolerance within which a per-step
distribution's sum must lie around 1 ("sums far from 1" are rejected).
The spec fixes no numeric value; one representative rational is chosen. -/
def sumTol : ℚ := 1 / 100

/-- A single entry is well formed: not NaN and non-negative. -/
def entryValidB : PVal → Bool
  | .nan => false
  | .val q => decide (0 ≤ q)

/-- Modelled from the spec: validity of one per-step distribution —
every entry finite and non-negative, and the row sum within `sumTol`
of 1 on either side. -/
def rowValidB (row : List PVal) : Bool :=
  row.all entryValidB &&
    decide (1 - sumTol ≤ rowSum row ∧ rowSum row ≤ 1 + sumTol)

/-- Validity of a whole posterior matrix: every row valid. -/
def matValidB (m : List (List PVal)) : Bool :=
  m.all rowValidB

/-- Validity of a batch of posterior matrices. -/
def batchValidB (b : List (List (List PVal))) : Bool :=
  b.all matValidB

/-- Errors a decoder can signal, per the spec's error-handling design. -/
inductive DecodeError where
  | invalidInput : DecodeError
  | noViableBeam : DecodeError
deriving DecidableEq, Repr

/-- Modelled from the spec: the distinguished BLANK index of the alphabet.
The demo passes no blank index to either decoder, so it is a fixed
constant of the decoding subsystem; the alphabet's first index is used. -/
def blankIx : Nat := 0

/-- Index of the first maximal element of a rational list (0 for the empty
list): the deterministic arg-max with first-occurrence tie-breaking. -/
def argmaxIdx : List ℚ → Nat
  | [] => 0
  | [_] => 0
  | q :: rest =>
    let j := argmaxIdx rest
    if q < rest.getD j 0 then j + 1 else 0

/-- Collapse consecutive equal elements of a list to one occurrence. -/
def dedupConsec : List Nat → List Nat
  | [] => []
  | [a] => [a]
  | a :: b :: rest =>
    if a = b then dedupConsec (b :: rest) else a :: dedupConsec (b :: rest)

/-- Modelled from the spec: the greedy CTC decode of one sample
(§4.1) — arg-max per real time step, collapse of consecutive repeats,
removal of blanks, truncation at the first EOS; the output is the real
labels with EOS appended as terminal marker, together with the number of
real labels. -/
def greedySample (m : List (List PVal)) (len : Nat) (eosIx : Nat) :
    List Nat × Nat :=
  let path := (m.take len).map (fun row => argmaxIdx (row.map PVal.toQ))
  let collapsed := (dedupConsec path).filter (fun c => c ≠ blankIx)
  let real := collapsed.takeWhile (fun c => c ≠ eosIx)
  (real ++ [eosIx], real.length)

/-- Modelled from the spec: `ctc_greedy_decode` (utils/decoders.py, absent
from the sources). Validates the posterior batch, then decodes each
(sample, valid-length) pair greedily; the batch output is the flat
concatenation of the per-sample label sequences plus the list of real
output lengths. -/
def ctc_greedy_decode (out : List (List (List PVal))) (lens : List Nat)
    (eosIx : Nat) : Except DecodeError (List Nat × List Nat) :=
  if batchValidB out then
    let per := (out.zip lens).map (fun s => greedySample s.1 s.2 eosIx)
    .ok ((per.map (fun r => r.1)).flatten, per.map (fun r => r.2))
  else
    .error .invalidInput

/-- Modelled from the spec: the beam-search parameter set (§4.2) —
`beamWidth` (maximum beams retained), `alpha` (language-model weight,
here the natural exponent applied to the scorer's probability factor so
that the spec's `alpha * logP` term stays exactly rational), `beta`
(length-penalty factor, the probability-domain image `exp` of the spec's
additive penalty), and `threshProb` (per-step pruning threshold relative
to the step maximum). -/
structure BeamParams where
  beamWidth : Nat
  alpha : Nat
  beta : ℚ
  threshProb : ℚ
deriving DecidableEq, Repr

/-- Modelled from the spec: the Language-Model Scorer interface (§4.3) —
given the completed word (sequence of alphabet indices) it returns a
probability-domain score factor. The prior context is the decoder-supplied
word itself; a stub scorer is a plain function. -/
def LMScorer : Type := List Nat → ℚ

/-- Modelled from the spec: the language-model contribution applied at a
word boundary. An absent scorer contributes the neutral factor 1 (the
spec's zero log-contribution); a present scorer contributes
`(scorer word) ^ alpha * beta`, the probability-domain image of the
spec's `alpha * logP(word) + beta` score increment. -/
def lmApply (lm : Option LMScorer) (p : BeamParams) (w : List Nat) : ℚ :=
  match lm with
  | none => 1
  | some f => (f w) ^ p.alpha * p.beta

/-- Modelled from the spec: a beam (§3) — the collapsed blank-free label
sequence produced so far, together with the in-progress word since the
last space/EOS, and the beam's probability mass split into the paths
ending in blank (`pb`) and the paths ending in a non-blank label (`pnb`):
the spec's requirement that the CTC-collapse transition be tracked
separately from the blank transition. The spec's `score` is `pb + pnb`
and its `lastLabel` is the last element of `labels`. -/
structure Beam where
  labels : List Nat
  pendingWord : List Nat
  pb : ℚ
  pnb : ℚ
deriving DecidableEq, Repr

/-- Combined score of a beam: total probability mass. -/
def Beam.score (b : Beam) : ℚ := b.pb + b.pnb

/-- The spec's `lastLabel`: last non-blank label emitted (blanks never
enter `labels`). -/
def Beam.lastLabel (b : Beam) : Option Nat := b.labels.getLast?

/-- A beam whose last appended symbol is EOS is frozen: it no longer
competes for expansion but remains eligible as the final answer. -/
def Beam.frozen (eosIx : Nat) (b : Beam) : Bool :=
  b.labels.getLast? = some eosIx

/-- Modelled from the spec: appending a new non-blank symbol `c` to beam
`b` with incoming path mass `mass` — the language model is consulted when
`c` is SPACE or EOS and a word is pending, and the pending word is then
reset; otherwise the symbol joins the pending word. -/
def appendBeam (lmF : List Nat → ℚ) (spaceIx eosIx : Nat) (b : Beam)
    (c : Nat) (mass : ℚ) : Beam :=
  let fuse :=
    if (c = spaceIx ∨ c = eosIx) ∧ b.pendingWord ≠ [] then lmF b.pendingWord
    else 1
  { labels := b.labels ++ [c]
    pendingWord := if c = spaceIx ∨ c = eosIx then [] else b.pendingWord ++ [c]
    pb := 0
    pnb := mass * fuse }

/-- Modelled from the spec: expansion of one beam by one candidate symbol
(§4.2 step 2). A blank keeps `labels` and moves all mass to the
blank-ending component; a repeat of `lastLabel` contributes its
non-blank-ending mass to the unchanged beam (CTC collapse) and its
blank-ending mass to a genuinely extended beam (blank-separated repeat);
any other symbol extends the beam with the full mass. -/
def extendWith (dist : List ℚ) (lmF : List Nat → ℚ) (spaceIx eosIx : Nat)
    (b : Beam) (c : Nat) : List Beam :=
  let p := dist.getD c 0
  if c = blankIx then
    [{ b with pb := (b.pb + b.pnb) * p, pnb := 0 }]
  else if b.labels.getLast? = some c then
    [{ b with pb := 0, pnb := b.pnb * p },
     appendBeam lmF spaceIx eosIx b c (b.pb * p)]
  else
    [appendBeam lmF spaceIx eosIx b c ((b.pb + b.pnb) * p)]

/-- The step's maximum probability: the entry at the arg-max index. -/
def maxProb (dist : List ℚ) : ℚ := dist.getD (argmaxIdx dist) 0

/-- Modelled from the spec: per-step candidate pruning (§4.2 step 1) —
symbols whose probability is below `threshProb` relative to the step's
own maximum are discarded. -/
def candidates (tp : ℚ) (dist : List ℚ) : List Nat :=
  (List.range dist.length).filter (fun c => tp * maxProb dist ≤ dist.getD c 0)

/-- Expansion of one beam over all surviving candidates; a frozen beam is
carried as-is. -/
def expandBeam (dist : List ℚ) (cands : List Nat) (lmF : List Nat → ℚ)
    (spaceIx eosIx : Nat) (b : Beam) : List Beam :=
  if b.frozen eosIx then [b]
  else cands.flatMap (extendWith dist lmF spaceIx eosIx b)

/-- Merge one successor beam into the accumulator: if a beam with the same
`labels` is already present, the probability masses are added
componentwise (the spec's log-sum-exp combination, exactly, in the
probability domain); otherwise the beam is appended, preserving
first-discovery order. -/
def mergeInto (b : Beam) : List Beam → List Beam
  | [] => [b]
  | a :: rest =>
    if a.labels = b.labels then
      { a with pb := a.pb + b.pb, pnb := a.pnb + b.pnb } :: rest
    else
      a :: mergeInto b rest

/-- Modelled from the spec: merging (§4.2 step 3) — successor beams with
identical labels are combined, keyed by the label sequence. -/
def mergeBeams (l : List Beam) : List Beam :=
  l.foldl (fun acc b => mergeInto b acc) []

/-- Stable insertion into a score-descending list: the inserted beam goes
after every beam of score greater than or equal to its own, so earlier
discovery wins ties. -/
def insertDesc (b : Beam) : List Beam → List Beam
  | [] => [b]
  | a :: rest =>
    if a.score < b.score then b :: a :: rest else a :: insertDesc b rest

/-- Stable sort of beams by descending combined score. -/
def sortDesc (l : List Beam) : List Beam := l.foldr insertDesc []

/-- Modelled from the spec: one time step of beam search — candidate
pruning, expansion, merge, and pruning to `beamWidth` (§4.2 steps 1-4). -/
def stepBeams (bw : Nat) (tp : ℚ) (lmF : List Nat → ℚ)
    (spaceIx eosIx : Nat) (beams : List Beam) (rowP : List PVal) :
    List Beam :=
  let dist := rowP.map PVal.toQ
  let cands := candidates tp dist
  (sortDesc (mergeBeams
    (beams.flatMap (expandBeam dist cands lmF spaceIx eosIx)))).take bw

/-- The initial beam set: one empty beam carrying the whole unit mass on
its blank-ending component. -/
def initBeams : List Beam := [⟨[], [], 1, 0⟩]

/-- Modelled from the spec: beam-search decode of one sample — fold the
step function over the real time steps, then select the highest-scoring
surviving beam (the head of the score-descending set); the output is its
labels terminated by exactly one EOS marker, plus the real label count.
An empty surviving set is the spec's `NoViableBeam` condition. -/
def searchSample (m : List (List PVal)) (len : Nat) (bw : Nat) (tp : ℚ)
    (lmF : List Nat → ℚ) (spaceIx eosIx : Nat) :
    Except DecodeError (List Nat × Nat) :=
  match (m.take len).foldl (stepBeams bw tp lmF spaceIx eosIx) initBeams with
  | [] => .error .noViableBeam
  | best :: _ =>
    let w := best.labels
    let out := if w.getLast? = some eosIx then w else w ++ [eosIx]
    .ok (out, out.length - 1)

/-- Sequencing of a fallible decode over a list of samples: the first
failure aborts the whole batch. -/
def exceptMap {α β : Type} (f : α → Except DecodeError β) :
    List α → Except DecodeError (List β)
  | [] => .ok []
  | x :: xs =>
    match f x, exceptMap f xs with
    | .error e, _ => .error e
    | .ok _, .error e => .error e
    | .ok y, .ok ys => .ok (y :: ys)

/-- Modelled from the spec: `ctc_search_decode` (utils/decoders.py, absent
from the sources). Validates the posterior batch, then beam-search
decodes each (sample, valid-length) pair; the batch output is the flat
concatenation of the per-sample label sequences plus the list of real
output lengths. -/
def ctc_search_decode (out : List (List (List PVal))) (lens : List Nat)
    (p : BeamParams) (spaceIx eosIx : Nat) (lm : Option LMScorer) :
    Except DecodeError (List Nat × List Nat) :=
  if batchValidB out then
    match exceptMap
        (fun s => searchSample s.1 s.2 p.beamWidth p.threshProb
          (lmApply lm p) spaceIx eosIx) (out.zip lens) with
    | .error e => .error e
    | .ok per => .ok ((per.map (fun r => r.1)).flatten, per.map (fun r => r.2))
  else
    .error .invalidInput

/-- Errors the demo run can end with: a Python IndexError from filename
indexing, a NameError from an unbound name, the spec's UnsupportedMode
for an unknown decode scheme, the invalid operation-mode exit, and the
decoder error conditions propagated uncaught. -/
inductive PyErr where
  | indexError : PyErr
  | nameError (name : String) : PyErr
  | unsupportedMode : PyErr
  | invalidOperationMode : PyErr
  | invalidInput : PyErr
  | noViableBeam : PyErr
deriving DecidableEq, Repr

/-- Injection of decoder errors into demo-level errors (the demo catches
nothing: decoder failures propagate). -/
def pyOfDecode : DecodeError → PyErr
  | .invalidInput => .invalidInput
  | .noViableBeam => .noViableBeam

/-- Python string indexing `s[i]` with negative-index semantics: a
negative index counts from the end; an index out of range raises
IndexError. -/
def pyCharAt (s : List Char) (i : Int) : Except PyErr Char :=
  let n : Int := s.length
  let j := if i < 0 then i + n else i
  if 0 ≤ j ∧ j < n then .ok (s.getD j.toNat ' ') else .error .indexError

/-- Python slicing `s[a:b]` for non-negative bounds: clamps, never
raises. -/
def pySlice (s : List Char) (a b : Nat) : List Char :=
  (s.take b).drop a

/-- Python slicing `s[a:b]` with possibly negative bounds: each bound is
shifted by the length when negative, then clamped; never raises. -/
def pySliceI (s : List Char) (a b : Int) : List Char :=
  let n : Int := s.length
  let a' := if a < 0 then a + n else a
  let b' := if b < 0 then b + n else b
  (s.take (max b' 0).toNat).drop (max a' 0).toNat

/-- The per-file filename parsing of demo.py (lines 94-106): speaker
number from `file[7]`, clip number from `file[12:14]` or `file[12]`
depending on `file[13]`, clip type from `file[-6]` or `file[-8:-4]`.
Each subscript follows Python indexing and can raise IndexError. -/
def parseFileInfo (f : List Char) : Except PyErr (Char × List Char × String) := do
  let sNum ← pyCharAt f 7
  let c13 ← pyCharAt f 13
  let cNum ←
    if c13 ≤ '9' ∧ '0' ≤ c13 then
      pure (pySlice f 12 14)
    else do
      let c12 ← pyCharAt f 12
      pure [c12]
  let m6 ← pyCharAt f (-6)
  let cType ←
    if m6 = 'l' then pure "jumble"
    else if m6 = 's' then pure "base"
    else pure (String.mk (pySliceI f (-8) (-4)))
  pure (sNum, cNum, cType)

/-- Modelled from the spec: the configuration surface (config.py, absent
from the sources) as consumed by demo.py — trained-model file, demo
directory, language-model switch, noise switch, operation and decoding
modes, the beam-search parameters, the distinguished SPACE and EOS
indices of `CHAR_TO_INDEX`, and the `INDEX_TO_CHAR` mapping. -/
structure Args where
  trainedModelFile : Option String
  demoDirectory : String
  useLM : Bool
  testDemoNoisy : Bool
  testDemoMode : String
  testDemoDecoding : String
  beamWidth : Nat
  lmWeightAlpha : Nat
  lengthPenaltyBeta : ℚ
  threshProbability : ℚ
  spaceIx : Nat
  eosIx : Nat
  indexToChar : Nat → String

/-- Opaque preprocessed input features of one sample. -/
def InpData : Type := List ℚ

/-- Raw noise waveform data. -/
def NoiseData : Type := List ℚ

/-- The external collaborators of the demo run: the directory walk's file
list, the preprocessing front end producing a sample's features and input
length, the batched network forward pass evaluated per sample (under the
chosen operation mode), the loaded language model, and the noise file
contents. -/
structure Env where
  files : List String
  prepData : Option NoiseData → String → InpData × Nat
  netSample : String → InpData → List (List PVal)
  lmModel : LMScorer
  noiseData : NoiseData

/-- One CSV row of the demo's output: speaker, clip, clip type,
prediction string. -/
structure Row where
  sNum : String
  cNum : String
  cType : String
  pred : String
deriving DecidableEq, Repr

/-- Observable effects of the demo run, in order: console prints, the
per-file preprocessing, each decoder invocation with its exact arguments,
and the final CSV write. -/
inductive Effect where
  | printMsg (s : String) : Effect
  | preprocess (file : String) : Effect
  | decodeGreedy (out : List (List (List PVal))) (lens : List Nat)
      (eosIx : Nat) : Effect
  | decodeSearch (out : List (List (List PVal))) (lens : List Nat)
      (p : BeamParams) (spaceIx eosIx : Nat) (lmPresent : Bool) : Effect
  | writeCSV (rows : List Row) : Effect
deriving DecidableEq, Repr

/-- Whether an effect is a decoder invocation. -/
def Effect.isDecode : Effect → Bool
  | .decodeGreedy _ _ _ => true
  | .decodeSearch _ _ _ _ _ _ => true
  | _ => false

/-- Whether an effect is the greedy decoder invocation. -/
def Effect.isGreedy : Effect → Bool
  | .decodeGreedy _ _ _ => true
  | _ => false

/-- Whether an effect is the beam-search decoder invocation. -/
def Effect.isSearch : Effect → Bool
  | .decodeSearch _ _ _ _ _ _ => true
  | _ => false

/-- Whether an effect is the preprocessing of a sample. -/
def Effect.isPreprocess : Effect → Bool
  | .preprocess _ => true
  | _ => false

/-- Whether an effect is the CSV write. -/
def Effect.isCSV : Effect → Bool
  | .writeCSV _ => true
  | _ => false

/-- Number of decoder invocations recorded in a trace. -/
def countDecodes (l : List Effect) : Nat :=
  l.countP Effect.isDecode

/-- The names bound at module level by demo.py's import statements
(lines 26-37): `wavfile` is not among them. -/
def demoImports : List String :=
  ["torch", "np", "os", "csv", "args", "AVNet", "LRS2CharLM",
   "VisualFrontend", "prepare_main_input", "collate_fn",
   "preprocess_sample", "ctc_greedy_decode", "ctc_search_decode"]

/-- Modelled from the spec: `collate_fn` (data/utils.py, absent from the
sources) — stacks a list of (input, target, input-length, target-length)
samples into batch form, here the list of inputs and the list of
lengths. -/
def collate_fn (batchList : List (InpData × Option Unit × Nat × Option Unit)) :
    List InpData × Option Unit × List Nat × Option Unit :=
  (batchList.map (fun s => s.1), none,
   batchList.map (fun s => s.2.2.1), none)

/-- The beam-search parameter set demo.py builds from the configuration
(lines 146-147). -/
def demoBeamParams (a : Args) : BeamParams :=
  ⟨a.beamWidth, a.lmWeightAlpha, a.lengthPenaltyBeta, a.threshProbability⟩

/-- The decode dispatch of demo.py (lines 142-152): on "greedy" the greedy
decoder is called with the posterior batch, the length batch and the EOS
index; on "search" the beam-search decoder is called with the posterior
batch, the length batch, the parameter set, the SPACE and EOS indices and
the optional language model; any other selection prints and exits. The
returned trace records the invocation with its exact arguments. -/
def decodeDispatch (a : Args) (lm : Option LMScorer)
    (outB : List (List (List PVal))) (lenB : List Nat) :
    List Effect × Except PyErr (List Nat × List Nat) :=
  if a.testDemoDecoding = "greedy" then
    ([.decodeGreedy outB lenB a.eosIx],
     (ctc_greedy_decode outB lenB a.eosIx).mapError pyOfDecode)
  else if a.testDemoDecoding = "search" then
    ([.decodeSearch outB lenB (demoBeamParams a) a.spaceIx a.eosIx lm.isSome],
     (ctc_search_decode outB lenB (demoBeamParams a) a.spaceIx a.eosIx
        lm).mapError pyOfDecode)
  else
    ([.printMsg "Invalid Decode Scheme"], .error .unsupportedMode)

/-- The language model demo.py passes to decoding (lines 69-73): the
loaded model when `USE_LM` is set, `None` otherwise. -/
def demoLM (a : Args) (env : Env) : Option LMScorer :=
  if a.useLM then some env.lmModel else none

/-- The per-file pipeline of demo.py (lines 92-164): filename parsing,
preprocessing, input preparation, singleton-batch collation, the
operation-mode check, the per-sample network forward pass, the decode
dispatch, and the `predictionBatch[:][:-1]` strip followed by the
index-to-character mapping that forms the prediction row. -/
def processFile (a : Args) (env : Env) (noise : Option NoiseData)
    (lm : Option LMScorer) (file : String) :
    List Effect × Except PyErr Row :=
  match parseFileInfo file.toList with
  | .error e => ([], .error e)
  | .ok (sNum, cNum, cType) =>
    let prep := env.prepData noise file
    let collated := collate_fn [(prep.1, none, prep.2, none)]
    let inputBatch := collated.1
    let inputLenBatch := collated.2.2.1
    if a.testDemoMode = "AO" ∨ a.testDemoMode = "VO" ∨ a.testDemoMode = "AV" then
      let outputBatch := inputBatch.map (env.netSample a.testDemoMode)
      let d := decodeDispatch a lm outputBatch inputLenBatch
      match d.2 with
      | .error e => (Effect.preprocess file :: d.1, .error e)
      | .ok (predictionBatch, _) =>
        let predLabels := predictionBatch.dropLast
        let pred := String.join (predLabels.map a.indexToChar)
        let row : Row := ⟨String.mk [sNum], String.mk cNum, cType, pred⟩
        (Effect.preprocess file :: d.1 ++
          [Effect.printMsg ("File: " ++ file),
           Effect.printMsg ("Speaker: " ++ row.sNum ++ "   Clip: " ++
             row.cNum ++ "   Clip Type: " ++ row.cType),
           Effect.printMsg ("Prediction: " ++ pred)],
         .ok row)
    else
      ([Effect.preprocess file, Effect.printMsg "Invalid Operation Mode."],
       .error .invalidOperationMode)

/-- The demo loop over the directory walk: every file ending in ".mp4" is
processed in order; the first failure aborts the run (a Python exception
or `exit()` propagates out of the loop). -/
def runFiles (a : Args) (env : Env) (noise : Option NoiseData)
    (lm : Option LMScorer) :
    List String → List Effect × List Row × Option PyErr
  | [] => ([], [], none)
  | f :: fs =>
    if f.endsWith ".mp4" then
      match processFile a env noise lm f with
      | (effs, .ok row) =>
        let rest := runFiles a env noise lm fs
        (effs ++ rest.1, row :: rest.2.1, rest.2.2)
      | (effs, .error e) => (effs, [], some e)
    else
      runFiles a env noise lm fs

/-- Outcome of a demo run: the ordered effect trace and the terminal
error, if any. -/
structure RunResult where
  effects : List Effect
  err : Option PyErr
deriving Repr

/-- The `main` of demo.py: with no trained-model file it only prints a
message and returns; otherwise it prints the header, builds the optional
language model, evaluates the noise-file read (which references the
unbound name `wavfile` when `TEST_DEMO_NOISY` is set), walks the demo
directory decoding each .mp4 file, and finally writes the prediction rows
to the CSV file. -/
def main (a : Args) (env : Env) : RunResult :=
  match a.trainedModelFile with
  | none => ⟨[.printMsg "Path to trained model file not specified."], none⟩
  | some mf =>
    let e0 : List Effect :=
      [.printMsg ("Trained Model File: " ++ mf),
       .printMsg ("Demo Directory: " ++ a.demoDirectory)]
    let lm := demoLM a env
    if a.testDemoNoisy ∧ ¬ demoImports.contains "wavfile" then
      ⟨e0, some (.nameError "wavfile")⟩
    else
      let noise := if a.testDemoNoisy then some env.noiseData else none
      let e1 := e0 ++ [Effect.printMsg "Running Demo ....",
                       Effect.printMsg a.testDemoMode]
      let r := runFiles a env noise lm env.files
      match r.2.2 with
      | some e => ⟨e1 ++ r.1, some e⟩
      | none =>
        ⟨e1 ++ r.1 ++ [Effect.printMsg "Demo Completed.",
                       Effect.writeCSV r.2.1], none⟩

/-! ## Helper lemmas on the arg-max and candidate pruning -/

theorem argmaxIdx_lt_length : ∀ (l : List ℚ), l ≠ [] → argmaxIdx l < l.length
  | [_], _ => by simp [argmaxIdx]
  | _ :: b :: rest, _ => by
    have ih := argmaxIdx_lt_length (b :: rest) (by simp)
    simp only [argmaxIdx]
    split
    · simpa using Nat.succ_lt_succ ih
    · simp

theorem le_argmax : ∀ (l : List ℚ) (x : ℚ), x ∈ l →
    x ≤ l.getD (argmaxIdx l) 0
  | [q], x, hx => by
    simp only [List.mem_singleton] at hx
    simp [argmaxIdx, hx]
  | q :: b :: rest, x, hx => by
    have ih := fun y hy => le_argmax (b :: rest) y hy
    simp only [argmaxIdx]
    rcases List.mem_cons.mp hx with h | h
    · subst h
      split
      next hlt => rw [List.getD_cons_succ]; exact le_of_lt hlt
      next hge => rw [List.getD_cons_zero]
    · split
      next hlt => rw [List.getD_cons_succ]; exact ih x h
      next hge =>
        rw [List.getD_cons_zero]
        exact le_trans (ih x h) (le_of_not_lt hge)

theorem nonneg_maxProb (dist : List ℚ) (hne : dist ≠ [])
    (hpos : ∀ x ∈ dist, 0 ≤ x) : 0 ≤ maxProb dist := by
  have hlt := argmaxIdx_lt_length dist hne
  have : dist.getD (argmaxIdx dist) 0 = dist[argmaxIdx dist] :=
    List.getD_eq_getElem dist 0 hlt
  unfold maxProb
  rw [this]
  exact hpos _ (List.getElem_mem hlt)

theorem argmax_mem_candidates (tp : ℚ) (dist : List ℚ) (h1 : tp ≤ 1)
    (h2 : dist ≠ []) (h3 : ∀ x ∈ dist, 0 ≤ x) :
    argmaxIdx dist ∈ candidates tp dist := by
  unfold candidates
  refine List.mem_filter.mpr
    ⟨List.mem_range.mpr (argmaxIdx_lt_length dist h2), ?_⟩
  have hmax : 0 ≤ maxProb dist := nonneg_maxProb dist h2 h3
  have hle : tp * maxProb dist ≤ maxProb dist := mul_le_of_le_one_left hmax h1
  simpa [maxProb] using hle

theorem candidates_ne_nil (tp : ℚ) (dist : List ℚ) (h1 : tp ≤ 1)
    (h2 : dist ≠ []) (h3 : ∀ x ∈ dist, 0 ≤ x) :
    candidates tp dist ≠ [] :=
  List.ne_nil_of_mem (argmax_mem_candidates tp dist h1 h2 h3)

/-! ## Helper lemmas on row validity -/

theorem rowValid_nonneg (row : List PVal) (h : rowValidB row = true) :
    ∀ x ∈ row.map PVal.toQ, 0 ≤ x := by
  intro x hx
  rcases List.mem_map.mp hx with ⟨e, he, rfl⟩
  simp only [rowValidB, Bool.and_eq_true] at h
  have := (List.all_eq_true.mp h.1) e he
  cases e with
  | nan => simp [entryValidB] at this
  | val q => simpa [entryValidB, PVal.toQ] using this

theorem rowValid_ne_nil (row : List PVal) (h : rowValidB row = true) :
    row.map PVal.toQ ≠ [] := by
  intro hmap
  have : row = [] := List.map_eq_nil_iff.mp hmap
  subst this
  exact absurd h (by with_unfolding_all decide)

/-! ## Structural lemmas on beam expansion, merging and pruning -/

/-- The labels of a beam never carry the EOS marker before the final
position: the key shape invariant of the beam search. -/
def BeamOk (eosIx : Nat) (b : Beam) : Prop := eosIx ∉ b.labels.dropLast

theorem appendBeam_labels (lmF : List Nat → ℚ) (spaceIx eosIx : Nat)
    (b : Beam) (c : Nat) (mass : ℚ) :
    (appendBeam lmF spaceIx eosIx b c mass).labels = b.labels ++ [c] := rfl

theorem extendWith_labels (dist : List ℚ) (lmF : List Nat → ℚ)
    (spaceIx eosIx : Nat) (b : Beam) (c : Nat) :
    ∀ x ∈ extendWith dist lmF spaceIx eosIx b c,
      x.labels = b.labels ∨ x.labels = b.labels ++ [c] := by
  intro x hx
  unfold extendWith at hx
  split at hx
  · simp only [List.mem_singleton] at hx
    subst hx
    exact Or.inl rfl
  · split at hx
    · rcases List.mem_cons.mp hx with h | h
      · subst h; exact Or.inl rfl
      · simp only [List.mem_singleton] at h
        subst h
        exact Or.inr (appendBeam_labels _ _ _ _ _ _)
    · simp only [List.mem_singleton] at hx
      subst hx
      exact Or.inr (appendBeam_labels _ _ _ _ _ _)

theorem extendWith_ne_nil (dist : List ℚ) (lmF : List Nat → ℚ)
    (spaceIx eosIx : Nat) (b : Beam) (c : Nat) :
    extendWith dist lmF spaceIx eosIx b c ≠ [] := by
  unfold extendWith
  split
  · simp
  · split <;> simp

theorem not_mem_of_not_frozen (e : Nat) (b : Beam)
    (hf : b.frozen e = false) (hok : BeamOk e b) : e ∉ b.labels := by
  intro hmem
  have hne : b.labels ≠ [] := List.ne_nil_of_mem hmem
  have hdec := List.dropLast_append_getLast hne
  rw [← hdec] at hmem
  rcases List.mem_append.mp hmem with h | h
  · exact hok h
  · have hlast : e = b.labels.getLast hne := by simpa using h
    have hg : b.labels.getLast? = some (b.labels.getLast hne) :=
      List.getLast?_eq_getLast _ hne
    have : b.labels.getLast? ≠ some e := by
      simpa [Beam.frozen] using hf
    exact this (hlast ▸ hg)

theorem extendWith_BeamOk (dist : List ℚ) (lmF : List Nat → ℚ)
    (spaceIx eosIx : Nat) (b : Beam) (c : Nat)
    (hf : b.frozen eosIx = false) (hok : BeamOk eosIx b) :
    ∀ x ∈ extendWith dist lmF spaceIx eosIx b c, BeamOk eosIx x := by
  intro x hx
  rcases extendWith_labels dist lmF spaceIx eosIx b c x hx with h | h
  · unfold BeamOk
    rw [h]
    exact hok
  · unfold BeamOk
    rw [h, List.dropLast_concat]
    exact not_mem_of_not_frozen eosIx b hf hok

theorem expandBeam_BeamOk (dist : List ℚ) (cands : List Nat)
    (lmF : List Nat → ℚ) (spaceIx eosIx : Nat) (b : Beam)
    (hok : BeamOk eosIx b) :
    ∀ x ∈ expandBeam dist cands lmF spaceIx eosIx b, BeamOk eosIx x := by
  intro x hx
  unfold expandBeam at hx
  split at hx
  · simp only [List.mem_singleton] at hx
    subst hx
    exact hok
  · next hcond =>
    rcases List.mem_flatMap.mp hx with ⟨c, _, hxc⟩
    have hf : b.frozen eosIx = false := by
      simpa using hcond
    exact extendWith_BeamOk dist lmF spaceIx eosIx b c hf hok x hxc

theorem mergeInto_labels_pred (P : List Nat → Prop) (b : Beam) :
    ∀ (l : List Beam), (∀ a ∈ l, P a.labels) → P b.labels →
      ∀ x ∈ mergeInto b l, P x.labels
  | [], _, hb, x, hx => by
    simp only [mergeInto, List.mem_singleton] at hx
    subst hx
    exact hb
  | a :: rest, hl, hb, x, hx => by
    unfold mergeInto at hx
    split at hx
    · rcases List.mem_cons.mp hx with h | h
      · subst h
        exact hl a (List.mem_cons_self a rest)
      · exact hl x (List.mem_cons_of_mem a h)
    · rcases List.mem_cons.mp hx with h | h
      · subst h
        exact hl x (List.mem_cons_self x rest)
      · exact mergeInto_labels_pred P b rest
          (fun y hy => hl y (List.mem_cons_of_mem a hy)) hb x h

theorem foldl_mergeInto_pred (P : List Nat → Prop) :
    ∀ (l acc : List Beam), (∀ a ∈ acc, P a.labels) →
      (∀ b ∈ l, P b.labels) →
      ∀ x ∈ l.foldl (fun acc b => mergeInto b acc) acc, P x.labels
  | [], _, hacc, _, x, hx => hacc x hx
  | b :: rest, acc, hacc, hl, x, hx =>
    foldl_mergeInto_pred P rest (mergeInto b acc)
      (fun y hy => mergeInto_labels_pred P b acc hacc
        (hl b (List.mem_cons_self b rest)) y hy)
      (fun y hy => hl y (List.mem_cons_of_mem b hy)) x hx

theorem mergeBeams_pred (P : List Nat → Prop) (l : List Beam)
    (h : ∀ b ∈ l, P b.labels) : ∀ x ∈ mergeBeams l, P x.labels :=
  foldl_mergeInto_pred P l [] (by simp) h

theorem mem_insertDesc : ∀ (l : List Beam) (b x : Beam),
    x ∈ insertDesc b l → x = b ∨ x ∈ l
  | [], b, x, hx => by
    simp only [insertDesc, List.mem_singleton] at hx
    exact Or.inl hx
  | a :: rest, b, x, hx => by
    unfold insertDesc at hx
    split at hx
    · rcases List.mem_cons.mp hx with h | h
      · exact Or.inl h
      · exact Or.inr h
    · rcases List.mem_cons.mp hx with h | h
      · exact Or.inr (h ▸ List.mem_cons_self a rest)
      · rcases mem_insertDesc rest b x h with h' | h'
        · exact Or.inl h'
        · exact Or.inr (List.mem_cons_of_mem a h')

theorem mem_sortDesc : ∀ (l : List Beam) (x : Beam),
    x ∈ sortDesc l → x ∈ l
  | [], x, hx => by simp [sortDesc] at hx
  | a :: rest, x, hx => by
    have heq : sortDesc (a :: rest) = insertDesc a (sortDesc rest) := rfl
    rw [heq] at hx
    rcases mem_insertDesc (sortDesc rest) a x hx with h | h
    · exact h ▸ List.mem_cons_self a rest
    · exact List.mem_cons_of_mem a (mem_sortDesc rest x h)

theorem stepBeams_BeamsOk (bw : Nat) (tp : ℚ) (lmF : List Nat → ℚ)
    (spaceIx eosIx : Nat) (beams : List Beam) (row : List PVal)
    (h : ∀ b ∈ beams, BeamOk eosIx b) :
    ∀ x ∈ stepBeams bw tp lmF spaceIx eosIx beams row, BeamOk eosIx x := by
  intro x hx
  unfold stepBeams at hx
  have hx1 := List.mem_of_mem_take hx
  have hx2 := mem_sortDesc _ x hx1
  refine mergeBeams_pred (fun L => eosIx ∉ L.dropLast) _ ?_ x hx2
  intro b hb
  rcases List.mem_flatMap.mp hb with ⟨b0, hb0, hbe⟩
  exact expandBeam_BeamOk _ _ lmF spaceIx eosIx b0 (h b0 hb0) b hbe

theorem foldl_stepBeams_BeamsOk (bw : Nat) (tp : ℚ) (lmF : List Nat → ℚ)
    (spaceIx eosIx : Nat) :
    ∀ (rows : List (List PVal)) (init : List Beam),
      (∀ b ∈ init, BeamOk eosIx b) →
      ∀ x ∈ rows.foldl (stepBeams bw tp lmF spaceIx eosIx) init, BeamOk eosIx x
  | [], _, h, x, hx => h x hx
  | r :: rest, init, h, x, hx =>
    foldl_stepBeams_BeamsOk bw tp lmF spaceIx eosIx rest
      (stepBeams bw tp lmF spaceIx eosIx init r)
      (fun b hb => stepBeams_BeamsOk bw tp lmF spaceIx eosIx init r h b hb) x hx

/-! ## Non-emptiness of the surviving beam set -/

theorem mergeInto_ne_nil (b : Beam) : ∀ (l : List Beam), mergeInto b l ≠ []
  | [] => by simp [mergeInto]
  | a :: rest => by
    unfold mergeInto
    split <;> simp

theorem foldl_mergeInto_ne_nil : ∀ (l acc : List Beam), acc ≠ [] →
    l.foldl (fun acc b => mergeInto b acc) acc ≠ []
  | [], _, h => h
  | b :: rest, acc, _ =>
    foldl_mergeInto_ne_nil rest (mergeInto b acc) (mergeInto_ne_nil b acc)

theorem mergeBeams_ne_nil : ∀ (l : List Beam), l ≠ [] → mergeBeams l ≠ []
  | [], h => absurd rfl h
  | b :: rest, _ =>
    foldl_mergeInto_ne_nil rest (mergeInto b []) (mergeInto_ne_nil b [])

theorem insertDesc_ne_nil (b : Beam) : ∀ (l : List Beam), insertDesc b l ≠ []
  | [] => by simp [insertDesc]
  | a :: rest => by
    unfold insertDesc
    split <;> simp

theorem sortDesc_ne_nil : ∀ (l : List Beam), l ≠ [] → sortDesc l ≠ []
  | [], h => absurd rfl h
  | a :: rest, _ => insertDesc_ne_nil a (sortDesc rest)

theorem take_ne_nil_of_ne_nil {α : Type} (n : Nat) (l : List α)
    (hn : n ≠ 0) (hl : l ≠ []) : l.take n ≠ [] := by
  cases l with
  | nil => exact absurd rfl hl
  | cons a t =>
    cases n with
    | zero => exact absurd rfl hn
    | succ k => simp

theorem expandBeam_ne_nil (dist : List ℚ) (cands : List Nat)
    (lmF : List Nat → ℚ) (spaceIx eosIx : Nat) (b : Beam)
    (hc : cands ≠ []) : expandBeam dist cands lmF spaceIx eosIx b ≠ [] := by
  unfold expandBeam
  split
  · simp
  · obtain ⟨c, hcm⟩ := List.exists_mem_of_ne_nil cands hc
    obtain ⟨x, hx⟩ := List.exists_mem_of_ne_nil _
      (extendWith_ne_nil dist lmF spaceIx eosIx b c)
    exact List.ne_nil_of_mem (List.mem_flatMap.mpr ⟨c, hcm, hx⟩)

theorem flatMap_expand_ne_nil (dist : List ℚ) (cands : List Nat)
    (lmF : List Nat → ℚ) (spaceIx eosIx : Nat) (beams : List Beam)
    (hb : beams ≠ []) (hc : cands ≠ []) :
    beams.flatMap (expandBeam dist cands lmF spaceIx eosIx) ≠ [] := by
  obtain ⟨b, hbm⟩ := List.exists_mem_of_ne_nil beams hb
  obtain ⟨x, hx⟩ := List.exists_mem_of_ne_nil _
    (expandBeam_ne_nil dist cands lmF spaceIx eosIx b hc)
  exact List.ne_nil_of_mem (List.mem_flatMap.mpr ⟨b, hbm, hx⟩)

theorem stepBeams_ne_nil (bw : Nat) (tp : ℚ) (lmF : List Nat → ℚ)
    (spaceIx eosIx : Nat) (beams : List Beam) (row : List PVal)
    (hbw : 1 ≤ bw) (htp : tp ≤ 1) (hrow : rowValidB row = true)
    (hb : beams ≠ []) :
    stepBeams bw tp lmF spaceIx eosIx beams row ≠ [] := by
  unfold stepBeams
  have hdist_ne : row.map PVal.toQ ≠ [] := rowValid_ne_nil row hrow
  have hdist_pos := rowValid_nonneg row hrow
  have hc := candidates_ne_nil tp (row.map PVal.toQ) htp hdist_ne hdist_pos
  refine take_ne_nil_of_ne_nil bw _ (by omega) ?_
  exact sortDesc_ne_nil _ (mergeBeams_ne_nil _
    (flatMap_expand_ne_nil _ _ lmF spaceIx eosIx beams hb hc))

theorem foldl_stepBeams_ne_nil (bw : Nat) (tp : ℚ) (lmF : List Nat → ℚ)
    (spaceIx eosIx : Nat) :
    ∀ (rows : List (List PVal)) (init : List Beam),
      (∀ r ∈ rows, rowValidB r = true) → 1 ≤ bw → tp ≤ 1 → init ≠ [] →
      rows.foldl (stepBeams bw tp lmF spaceIx eosIx) init ≠ []
  | [], _, _, _, _, h => h
  | r :: rest, init, hrows, hbw, htp, h =>
    foldl_stepBeams_ne_nil bw tp lmF spaceIx eosIx rest _
      (fun y hy => hrows y (List.mem_cons_of_mem r hy)) hbw htp
      (stepBeams_ne_nil bw tp lmF spaceIx eosIx init r hbw htp
        (hrows r (List.mem_cons_self r rest)) h)

/-! ## Success and output shape of the sample-level decoders -/

theorem searchSample_ok (m : List (List PVal)) (len bw : Nat) (tp : ℚ)
    (lmF : List Nat → ℚ) (spaceIx eosIx : Nat)
    (hm : matValidB m = true) (hbw : 1 ≤ bw) (htp : tp ≤ 1) :
    ∃ out olen, searchSample m len bw tp lmF spaceIx eosIx =
      Except.ok (out, olen) := by
  unfold searchSample
  have hrows : ∀ r ∈ m.take len, rowValidB r = true := fun r hr =>
    List.all_eq_true.mp (by simpa [matValidB] using hm) r
      (List.mem_of_mem_take hr)
  have hne := foldl_stepBeams_ne_nil bw tp lmF spaceIx eosIx (m.take len)
    initBeams hrows hbw htp (by simp [initBeams])
  cases hfin : (m.take len).foldl (stepBeams bw tp lmF spaceIx eosIx) initBeams with
  | nil => exact absurd hfin hne
  | cons best rest => exact ⟨_, _, rfl⟩

theorem searchSample_shape (m : List (List PVal)) (len bw : Nat) (tp : ℚ)
    (lmF : List Nat → ℚ) (spaceIx eosIx : Nat) (out : List Nat) (olen : Nat)
    (h : searchSample m len bw tp lmF spaceIx eosIx = Except.ok (out, olen)) :
    out = out.dropLast ++ [eosIx] ∧ eosIx ∉ out.dropLast := by
  unfold searchSample at h
  cases hfin : (m.take len).foldl (stepBeams bw tp lmF spaceIx eosIx) initBeams with
  | nil =>
    rw [hfin] at h
    exact absurd h (by simp)
  | cons best rest =>
    rw [hfin] at h
    have hok : BeamOk eosIx best := by
      refine foldl_stepBeams_BeamsOk bw tp lmF spaceIx eosIx (m.take len)
        initBeams ?_ best ?_
      · intro b hb
        simp only [initBeams, List.mem_singleton] at hb
        subst hb
        simp [BeamOk]
      · rw [hfin]
        exact List.mem_cons_self best rest
    have hout : out =
        (if best.labels.getLast? = some eosIx then best.labels
         else best.labels ++ [eosIx]) := by
      have := congrArg (fun r => match r with
        | Except.ok (p : List Nat × Nat) => p.1
        | Except.error _ => []) h
      simpa using this.symm
    by_cases hlast : best.labels.getLast? = some eosIx
    · rw [if_pos hlast] at hout
      have hne : best.labels ≠ [] := by
        intro h0
        rw [h0] at hlast
        simp at hlast
      have hg := List.getLast?_eq_getLast best.labels hne
      have hgl : best.labels.getLast hne = eosIx := by
        rw [hg] at hlast
        exact Option.some_injective _ hlast
      constructor
      · rw [hout, ← hgl]
        exact (List.dropLast_append_getLast hne).symm
      · rw [hout]
        exact hok
    · rw [if_neg hlast] at hout
      constructor
      · rw [hout, List.dropLast_concat]
      · rw [hout, List.dropLast_concat]
        refine not_mem_of_not_frozen eosIx best ?_ hok
        simpa [Beam.frozen] using hlast

theorem eos_shape_of_not_mem (real : List Nat) (e : Nat) (h : e ∉ real) :
    real ++ [e] = (real ++ [e]).dropLast ++ [e] ∧
    e ∉ (real ++ [e]).dropLast := by
  rw [List.dropLast_concat]
  exact ⟨rfl, h⟩

theorem greedySample_shape (m : List (List PVal)) (len eosIx : Nat) :
    (greedySample m len eosIx).1 =
      (greedySample m len eosIx).1.dropLast ++ [eosIx] ∧
    eosIx ∉ (greedySample m len eosIx).1.dropLast := by
  have hreal : eosIx ∉
      (((dedupConsec ((m.take len).map
          (fun row => argmaxIdx (row.map PVal.toQ)))).filter
        (fun c => c ≠ blankIx)).takeWhile (fun c => c ≠ eosIx)) := by
    intro hmem
    have := List.mem_takeWhile_imp hmem
    simp at this
  exact eos_shape_of_not_mem _ eosIx hreal

/-! ## Batch-level decoder lemmas -/

theorem exceptMap_ok_of_all {α β : Type} (f : α → Except DecodeError β) :
    ∀ (l : List α), (∀ x ∈ l, ∃ y, f x = Except.ok y) →
      ∃ res, exceptMap f l = Except.ok res
  | [], _ => ⟨[], rfl⟩
  | x :: xs, h => by
    obtain ⟨y, hy⟩ := h x (List.mem_cons_self x xs)
    obtain ⟨res, hres⟩ := exceptMap_ok_of_all f xs
      (fun z hz => h z (List.mem_cons_of_mem x hz))
    exact ⟨y :: res, by simp [exceptMap, hy, hres]⟩

theorem ctc_search_decode_ok (out : List (List (List PVal)))
    (lens : List Nat) (p : BeamParams) (spaceIx eosIx : Nat)
    (lm : Option LMScorer) (hv : batchValidB out = true)
    (hbw : 1 ≤ p.beamWidth) (htp : p.threshProb ≤ 1) :
    ∃ ls ols, ctc_search_decode out lens p spaceIx eosIx lm =
      Except.ok (ls, ols) := by
  unfold ctc_search_decode
  rw [if_pos hv]
  have hall : ∀ s ∈ out.zip lens, ∃ y,
      searchSample s.1 s.2 p.beamWidth p.threshProb (lmApply lm p)
        spaceIx eosIx = Except.ok y := by
    intro s hs
    obtain ⟨m, n⟩ := s
    have hm : matValidB m = true :=
      List.all_eq_true.mp (by simpa [batchValidB] using hv) m
        (List.of_mem_zip hs).1
    obtain ⟨o, ol, ho⟩ := searchSample_ok m n p.beamWidth p.threshProb
      (lmApply lm p) spaceIx eosIx hm hbw htp
    exact ⟨(o, ol), ho⟩
  obtain ⟨res, hres⟩ := exceptMap_ok_of_all _ _ hall
  rw [hres]
  exact ⟨_, _, rfl⟩

theorem ctc_search_decode_congr (out : List (List (List PVal)))
    (lens : List Nat) (p q : BeamParams) (spaceIx eosIx : Nat)
    (lm lm' : Option LMScorer) (hbw : p.beamWidth = q.beamWidth)
    (htp : p.threshProb = q.threshProb)
    (hlm : lmApply lm p = lmApply lm' q) :
    ctc_search_decode out lens p spaceIx eosIx lm =
    ctc_search_decode out lens q spaceIx eosIx lm' := by
  unfold ctc_search_decode
  simp only [hbw, htp, hlm]

theorem ctc_greedy_decode_singleton (m : List (List PVal)) (n eosIx : Nat)
    (hv : batchValidB [m] = true) :
    ctc_greedy_decode [m] [n] eosIx =
      Except.ok ((greedySample m n eosIx).1, [(greedySample m n eosIx).2]) := by
  unfold ctc_greedy_decode
  rw [if_pos hv]
  simp

theorem ctc_greedy_decode_singleton_inv (m : List (List PVal))
    (n eosIx : Nat) (labels : List Nat) (lens : List Nat)
    (h : ctc_greedy_decode [m] [n] eosIx = Except.ok (labels, lens)) :
    labels = (greedySample m n eosIx).1 := by
  unfold ctc_greedy_decode at h
  split at h
  · simp at h
    exact h.1.symm
  · exact absurd h (by simp)

theorem ctc_search_decode_singleton_inv (m : List (List PVal)) (n : Nat)
    (p : BeamParams) (spaceIx eosIx : Nat) (lm : Option LMScorer)
    (labels : List Nat) (lens : List Nat)
    (h : ctc_search_decode [m] [n] p spaceIx eosIx lm =
      Except.ok (labels, lens)) :
    ∃ olen, searchSample m n p.beamWidth p.threshProb (lmApply lm p)
      spaceIx eosIx = Except.ok (labels, olen) := by
  cases hss : searchSample m n p.beamWidth p.threshProb (lmApply lm p)
      spaceIx eosIx with
  | error e =>
    exfalso
    have hmap : exceptMap
        (fun s => searchSample s.1 s.2 p.beamWidth p.threshProb
          (lmApply lm p) spaceIx eosIx) [(m, n)] = Except.error e := by
      simp [exceptMap, hss]
    unfold ctc_search_decode at h
    rw [show [m].zip [n] = [(m, n)] from rfl, hmap] at h
    split at h <;> simp at h
  | ok y =>
    obtain ⟨o, ol⟩ := y
    have hmap : exceptMap
        (fun s => searchSample s.1 s.2 p.beamWidth p.threshProb
          (lmApply lm p) spaceIx eosIx) [(m, n)] = Except.ok [(o, ol)] := by
      simp [exceptMap, hss]
    unfold ctc_search_decode at h
    rw [show [m].zip [n] = [(m, n)] from rfl, hmap] at h
    split at h
    · simp only [List.map_cons, List.map_nil, List.flatten_cons,
        List.flatten_nil, List.append_nil, Except.ok.injEq,
        Prod.mk.injEq] at h
      obtain ⟨h1, h2⟩ := h
      subst h1
      exact ⟨ol, rfl⟩
    · simp at h

/-! ## Characterization of input validity -/

theorem rowValidB_spec (row : List PVal) (h : rowValidB row = true) :
    (∀ x ∈ row, entryValidB x = true) ∧
    (1 - sumTol ≤ rowSum row ∧ rowSum row ≤ 1 + sumTol) := by
  simp only [rowValidB, Bool.and_eq_true, List.all_eq_true,
    decide_eq_true_eq] at h
  exact h

theorem batchValidB_spec (out : List (List (List PVal)))
    (mat : List (List PVal)) (row : List PVal) (hm : mat ∈ out)
    (hr : row ∈ mat) (h : batchValidB out = true) : rowValidB row = true := by
  simp only [batchValidB, List.all_eq_true] at h
  have hmat := h mat hm
  simp only [matValidB, List.all_eq_true] at hmat
  exact hmat row hr

theorem batchValidB_eq_false (out : List (List (List PVal)))
    (mat : List (List PVal)) (row : List PVal) (hm : mat ∈ out)
    (hr : row ∈ mat)
    (hbad : PVal.nan ∈ row ∨ (∃ q, PVal.val q ∈ row ∧ q < 0) ∨
      rowSum row < 1 - sumTol ∨ 1 + sumTol < rowSum row) :
    batchValidB out = false := by
  cases hb : batchValidB out with
  | false => rfl
  | true =>
    exfalso
    have hrv := batchValidB_spec out mat row hm hr hb
    obtain ⟨hent, hlo, hhi⟩ := rowValidB_spec row hrv
    rcases hbad with h | ⟨q, hq, hneg⟩ | h | h
    · have := hent _ h
      simp [entryValidB] at this
    · have := hent _ hq
      simp only [entryValidB, decide_eq_true_eq] at this
      exact absurd hneg (not_lt.mpr this)
    · exact absurd hlo (not_le.mpr h)
    · exact absurd hhi (not_le.mpr h)

/-! ## The claims -/

/-- Claim C5: for a fixed input matrix, valid length, and parameter
configuration, both decoders are deterministic — two runs of the decode
step on the same inputs produce identical label sequences and output
lengths. In this embedding the decoders are pure functions, so two runs
with equal inputs are equal by congruence. -/
theorem claim_C5 (out1 out2 : List (List (List PVal)))
    (lens1 lens2 : List Nat) (e1 e2 : Nat) (p1 p2 : BeamParams)
    (sp1 sp2 : Nat) (lm1 lm2 : Option LMScorer)
    (hout : out1 = out2) (hlens : lens1 = lens2) (he : e1 = e2)
    (hp : p1 = p2) (hsp : sp1 = sp2) (hlm : lm1 = lm2) :
    ctc_greedy_decode out1 lens1 e1 = ctc_greedy_decode out2 lens2 e2 ∧
    ctc_search_decode out1 lens1 p1 sp1 e1 lm1 =
      ctc_search_decode out2 lens2 p2 sp2 e2 lm2 := by
  subst hout hlens he hp hsp hlm
  exact ⟨rfl, rfl⟩

/-- Witness for C5 at a concrete one-step input. -/
theorem claim_C5_witness :
    ctc_greedy_decode [[[PVal.val 0, PVal.val 1]]] [1] 1 =
      ctc_greedy_decode [[[PVal.val 0, PVal.val 1]]] [1] 1 ∧
    ctc_search_decode [[[PVal.val 0, PVal.val 1]]] [1] ⟨1, 1, 1, 1⟩ 0 1 none =
      ctc_search_decode [[[PVal.val 0, PVal.val 1]]] [1] ⟨1, 1, 1, 1⟩ 0 1 none :=
  claim_C5 [[[PVal.val 0, PVal.val 1]]] [[[PVal.val 0, PVal.val 1]]]
    [1] [1] 1 1 ⟨1, 1, 1, 1⟩ ⟨1, 1, 1, 1⟩ 0 0 none none
    rfl rfl rfl rfl rfl rfl

/-- Claim C7: a decode call whose posterior matrix contains a NaN or a
negative entry, or a per-step distribution whose sum is far from 1, fails
fast with the InvalidInput condition in both decoders and returns no
label sequence; the failure is not recovered internally. -/
theorem claim_C7 (out : List (List (List PVal))) (lens : List Nat)
    (p : BeamParams) (spaceIx eosIx : Nat) (lm : Option LMScorer)
    (mat : List (List PVal)) (row : List PVal)
    (hm : mat ∈ out) (hr : row ∈ mat)
    (hbad : PVal.nan ∈ row ∨ (∃ q, PVal.val q ∈ row ∧ q < 0) ∨
      rowSum row < 1 - sumTol ∨ 1 + sumTol < rowSum row) :
    ctc_greedy_decode out lens eosIx =
      Except.error DecodeError.invalidInput ∧
    ctc_search_decode out lens p spaceIx eosIx lm =
      Except.error DecodeError.invalidInput := by
  have hbv := batchValidB_eq_false out mat row hm hr hbad
  constructor
  · simp [ctc_greedy_decode, hbv]
  · simp [ctc_search_decode, hbv]

/-- Witness for C7: a one-row batch containing a negative probability
entry is rejected by both decoders. -/
theorem claim_C7_witness :
    ctc_greedy_decode [[[PVal.val 2, PVal.val (-1)]]] [1] 3 =
      Except.error DecodeError.invalidInput ∧
    ctc_search_decode [[[PVal.val 2, PVal.val (-1)]]] [1] ⟨1, 1, 1, 1⟩ 0 3
      none = Except.error DecodeError.invalidInput :=
  claim_C7 [[[PVal.val 2, PVal.val (-1)]]] [1] ⟨1, 1, 1, 1⟩ 0 3 none
    [[PVal.val 2, PVal.val (-1)]] [PVal.val 2, PVal.val (-1)]
    (by with_unfolding_all decide) (by with_unfolding_all decide)
    (Or.inr (Or.inl ⟨-1, by with_unfolding_all decide,
      by with_unfolding_all decide⟩))

/-! ## Python indexing lemmas -/

theorem except_bind_ok {ε α β : Type} (a : α) (k : α → Except ε β) :
    (Except.ok a >>= k) = k a := rfl

theorem except_bind_err {ε α β : Type} (e : ε) (k : α → Except ε β) :
    ((Except.error e : Except ε α) >>= k) = Except.error e := rfl

theorem pyCharAt_ok (s : List Char) (i : Int) (hi : 0 ≤ i)
    (h : i < s.length) : pyCharAt s i = Except.ok (s.getD i.toNat ' ') := by
  have hneg : ¬ (i < 0) := by omega
  simp only [pyCharAt, if_neg hneg]
  rw [if_pos ⟨hi, h⟩]

theorem pyCharAt_err (s : List Char) (i : Int) (hi : 0 ≤ i)
    (h : (s.length : Int) ≤ i) : pyCharAt s i = Except.error PyErr.indexError := by
  have hneg : ¬ (i < 0) := by omega
  simp only [pyCharAt, if_neg hneg]
  rw [if_neg (by omega)]

/-- Claim C10: if the trained-model file is not specified, main performs
no preprocessing, no decoding, and writes no CSV: it prints the
not-specified message and returns normally with no error. -/
theorem claim_C10 (a : Args) (env : Env) (h : a.trainedModelFile = none) :
    main a env =
      ⟨[Effect.printMsg "Path to trained model file not specified."],
       none⟩ ∧
    (∀ e ∈ (main a env).effects,
      e.isPreprocess = false ∧ e.isDecode = false ∧ e.isCSV = false) ∧
    (main a env).err = none := by
  have hm : main a env =
      ⟨[Effect.printMsg "Path to trained model file not specified."],
       none⟩ := by
    unfold main
    rw [h]
  refine ⟨hm, ?_, by rw [hm]⟩
  rw [hm]
  intro e he
  simp only [List.mem_singleton] at he
  subst he
  exact ⟨rfl, rfl, rfl⟩

/-- Witness for C10 at a concrete configuration with no model file. -/
theorem claim_C10_witness :
    main
      ⟨none, "demo", false, false, "AV", "greedy", 1, 1, 1, 1, 4, 3,
        fun _ => "?"⟩
      ⟨[], fun _ _ => ([], 0), fun _ _ => [], fun _ => 1, []⟩ =
      ⟨[Effect.printMsg "Path to trained model file not specified."],
       none⟩ :=
  (claim_C10
    ⟨none, "demo", false, false, "AV", "greedy", 1, 1, 1, 1, 4, 3,
      fun _ => "?"⟩
    ⟨[], fun _ _ => ([], 0), fun _ _ => [], fun _ => 1, []⟩ rfl).1

/-- Claim C8: with TEST_DEMO_NOISY set and a trained model file
specified, main fails on the unbound name `wavfile` (never imported by
demo.py) before any file is decoded or any CSV written: the run ends with
a NameError after only the two header prints. -/
theorem claim_C8 (a : Args) (env : Env) (mf : String)
    (h1 : a.testDemoNoisy = true) (h2 : a.trainedModelFile = some mf) :
    main a env =
      ⟨[Effect.printMsg ("Trained Model File: " ++ mf),
        Effect.printMsg ("Demo Directory: " ++ a.demoDirectory)],
       some (PyErr.nameError "wavfile")⟩ ∧
    demoImports.contains "wavfile" = false ∧
    (∀ e ∈ (main a env).effects,
      e.isDecode = false ∧ e.isCSV = false ∧ e.isPreprocess = false) := by
  have hw : demoImports.contains "wavfile" = false := by decide
  have hm : main a env =
      ⟨[Effect.printMsg ("Trained Model File: " ++ mf),
        Effect.printMsg ("Demo Directory: " ++ a.demoDirectory)],
       some (PyErr.nameError "wavfile")⟩ := by
    unfold main
    rw [h2]
    dsimp only
    rw [if_pos ⟨h1, by rw [hw]; exact Bool.false_ne_true⟩]
  refine ⟨hm, hw, ?_⟩
  rw [hm]
  intro e he
  rcases List.mem_cons.mp he with h | h
  · subst h
    exact ⟨rfl, rfl, rfl⟩
  · simp only [List.mem_singleton] at h
    subst h
    exact ⟨rfl, rfl, rfl⟩

/-- Witness for C8 at a concrete noisy configuration. -/
theorem claim_C8_witness :
    main
      ⟨some "model.pt", "demo", false, true, "AV", "greedy", 1, 1, 1, 1, 4,
        3, fun _ => "?"⟩
      ⟨[], fun _ _ => ([], 0), fun _ _ => [], fun _ => 1, []⟩ =
      ⟨[Effect.printMsg "Trained Model File: model.pt",
        Effect.printMsg "Demo Directory: demo"],
       some (PyErr.nameError "wavfile")⟩ :=
  (claim_C8
    ⟨some "model.pt", "demo", false, true, "AV", "greedy", 1, 1, 1, 1, 4, 3,
      fun _ => "?"⟩
    ⟨[], fun _ _ => ([], 0), fun _ _ => [], fun _ => 1, []⟩
    "model.pt" rfl rfl).1

/-- Claim C9: for any .mp4 file name shorter than 14 characters, the
demo's filename indexing (characters 7, 13 and -6) raises an
out-of-range IndexError, and the per-file pipeline fails before the
sample is preprocessed or decoded (its trace is empty). -/
theorem claim_C9 (a : Args) (env : Env) (noise : Option NoiseData)
    (lm : Option LMScorer) (file : String)
    (hlen : file.toList.length < 14)
    (_hmp4 : file.endsWith ".mp4" = true) :
    parseFileInfo file.toList = Except.error PyErr.indexError ∧
    processFile a env noise lm file = ([], Except.error PyErr.indexError) := by
  have hp : parseFileInfo file.toList = Except.error PyErr.indexError := by
    by_cases h8 : file.toList.length ≤ 7
    · unfold parseFileInfo
      rw [pyCharAt_err file.toList 7 (by omega) (by omega)]
      rfl
    · unfold parseFileInfo
      simp only [pyCharAt_ok file.toList 7 (by omega) (by omega),
        pyCharAt_err file.toList 13 (by omega) (by omega),
        except_bind_ok, except_bind_err]
  refine ⟨hp, ?_⟩
  unfold processFile
  rw [hp]

/-! ## Characterization of the per-file pipeline -/

theorem processFile_char (a : Args) (env : Env) (noise : Option NoiseData)
    (lm : Option LMScorer) (file : String) (sNum : Char) (cNum : List Char)
    (cType : String)
    (hp : parseFileInfo file.toList = Except.ok (sNum, cNum, cType))
    (hmode : a.testDemoMode = "AO" ∨ a.testDemoMode = "VO" ∨
      a.testDemoMode = "AV") :
    processFile a env noise lm file =
      (match (decodeDispatch a lm
          [env.netSample a.testDemoMode (env.prepData noise file).1]
          [(env.prepData noise file).2]).2 with
       | Except.error e =>
         (Effect.preprocess file :: (decodeDispatch a lm
            [env.netSample a.testDemoMode (env.prepData noise file).1]
            [(env.prepData noise file).2]).1, Except.error e)
       | Except.ok (pb, _) =>
         (Effect.preprocess file :: (decodeDispatch a lm
            [env.netSample a.testDemoMode (env.prepData noise file).1]
            [(env.prepData noise file).2]).1 ++
           [Effect.printMsg ("File: " ++ file),
            Effect.printMsg ("Speaker: " ++ String.mk [sNum] ++ "   Clip: " ++
              String.mk cNum ++ "   Clip Type: " ++ cType),
            Effect.printMsg ("Prediction: " ++
              String.join (pb.dropLast.map a.indexToChar))],
          Except.ok ⟨String.mk [sNum], String.mk cNum, cType,
            String.join (pb.dropLast.map a.indexToChar)⟩)) := by
  unfold processFile
  rw [hp]
  dsimp only
  rw [if_pos hmode]
  rfl

theorem decodeDispatch_unsupported (a : Args) (lm : Option LMScorer)
    (outB : List (List (List PVal))) (lenB : List Nat)
    (hg : a.testDemoDecoding ≠ "greedy") (hs : a.testDemoDecoding ≠ "search") :
    decodeDispatch a lm outB lenB =
      ([Effect.printMsg "Invalid Decode Scheme"],
       Except.error PyErr.unsupportedMode) := by
  unfold decodeDispatch
  rw [if_neg hg, if_neg hs]

theorem decodeDispatch_count_one (a : Args) (lm : Option LMScorer)
    (outB : List (List (List PVal))) (lenB : List Nat)
    (r : List Nat × List Nat)
    (h : (decodeDispatch a lm outB lenB).2 = Except.ok r) :
    countDecodes (decodeDispatch a lm outB lenB).1 = 1 := by
  unfold decodeDispatch at *
  by_cases hg : a.testDemoDecoding = "greedy"
  · rw [if_pos hg]
    rfl
  · by_cases hs : a.testDemoDecoding = "search"
    · rw [if_neg hg, if_pos hs]
      rfl
    · rw [if_neg hg, if_neg hs] at h
      simp at h

theorem decodeDispatch_greedy_origin (a : Args) (lm : Option LMScorer)
    (outB : List (List (List PVal))) (lenB : List Nat)
    (o : List (List (List PVal))) (l : List Nat) (e : Nat)
    (h : Effect.decodeGreedy o l e ∈ (decodeDispatch a lm outB lenB).1) :
    o = outB ∧ l = lenB := by
  unfold decodeDispatch at h
  by_cases hg : a.testDemoDecoding = "greedy"
  · rw [if_pos hg] at h
    simp only [List.mem_singleton, Effect.decodeGreedy.injEq] at h
    exact ⟨h.1, h.2.1⟩
  · by_cases hs : a.testDemoDecoding = "search"
    · rw [if_neg hg, if_pos hs] at h
      simp at h
    · rw [if_neg hg, if_neg hs] at h
      simp at h

theorem decodeDispatch_search_origin (a : Args) (lm : Option LMScorer)
    (outB : List (List (List PVal))) (lenB : List Nat)
    (o : List (List (List PVal))) (l : List Nat) (p : BeamParams)
    (sp e : Nat) (b : Bool)
    (h : Effect.decodeSearch o l p sp e b ∈ (decodeDispatch a lm outB lenB).1) :
    o = outB ∧ l = lenB := by
  unfold decodeDispatch at h
  by_cases hg : a.testDemoDecoding = "greedy"
  · rw [if_pos hg] at h
    simp at h
  · by_cases hs : a.testDemoDecoding = "search"
    · rw [if_neg hg, if_pos hs] at h
      simp only [List.mem_singleton, Effect.decodeSearch.injEq] at h
      exact ⟨h.1, h.2.1⟩
    · rw [if_neg hg, if_neg hs] at h
      simp at h

theorem processFile_trace_decomp (a : Args) (env : Env)
    (noise : Option NoiseData) (lm : Option LMScorer) (file : String)
    (eff : Effect) (h : eff ∈ (processFile a env noise lm file).1) :
    eff ∈ (decodeDispatch a lm
      [env.netSample a.testDemoMode (env.prepData noise file).1]
      [(env.prepData noise file).2]).1 ∨ eff.isDecode = false := by
  cases hp : parseFileInfo file.toList with
  | error e =>
    unfold processFile at h
    rw [hp] at h
    simp at h
  | ok info =>
    obtain ⟨sNum, cNum, cType⟩ := info
    by_cases hmode : a.testDemoMode = "AO" ∨ a.testDemoMode = "VO" ∨
        a.testDemoMode = "AV"
    · rw [processFile_char a env noise lm file sNum cNum cType hp hmode] at h
      cases hd : (decodeDispatch a lm
          [env.netSample a.testDemoMode (env.prepData noise file).1]
          [(env.prepData noise file).2]).2 with
      | error e =>
        rw [hd] at h
        simp only [List.mem_cons] at h
        rcases h with h | h
        · exact Or.inr (by rw [h]; rfl)
        · exact Or.inl h
      | ok r =>
        obtain ⟨pb, pl⟩ := r
        rw [hd] at h
        simp only [List.cons_append, List.mem_cons, List.mem_append,
          List.mem_singleton, List.not_mem_nil, or_false] at h
        rcases h with h | h | h | h | h
        · exact Or.inr (by rw [h]; rfl)
        · exact Or.inl h
        · exact Or.inr (by rw [h]; rfl)
        · exact Or.inr (by rw [h]; rfl)
        · exact Or.inr (by rw [h]; rfl)
    · unfold processFile at h
      rw [hp] at h
      dsimp only at h
      rw [if_neg hmode] at h
      simp only [List.mem_cons, List.mem_singleton, List.not_mem_nil,
        or_false] at h
      rcases h with h | h
      · exact Or.inr (by rw [h]; rfl)
      · exact Or.inr (by rw [h]; rfl)

theorem decodeDispatch_ok_shape (a : Args) (lm : Option LMScorer)
    (m : List (List PVal)) (n : Nat) (labels : List Nat) (lens : List Nat)
    (h : (decodeDispatch a lm [m] [n]).2 = Except.ok (labels, lens)) :
    labels = labels.dropLast ++ [a.eosIx] ∧ a.eosIx ∉ labels.dropLast := by
  unfold decodeDispatch at h
  by_cases hg : a.testDemoDecoding = "greedy"
  · rw [if_pos hg] at h
    dsimp only at h
    cases hx : ctc_greedy_decode [m] [n] a.eosIx with
    | error e =>
      rw [hx] at h
      simp [Except.mapError] at h
    | ok v =>
      rw [hx] at h
      simp only [Except.mapError, Except.ok.injEq] at h
      subst h
      have hl := ctc_greedy_decode_singleton_inv m n a.eosIx labels lens hx
      rw [hl]
      exact greedySample_shape m n a.eosIx
  · by_cases hs : a.testDemoDecoding = "search"
    · rw [if_neg hg, if_pos hs] at h
      dsimp only at h
      cases hx : ctc_search_decode [m] [n] (demoBeamParams a) a.spaceIx
          a.eosIx lm with
      | error e =>
        rw [hx] at h
        simp [Except.mapError] at h
      | ok v =>
        rw [hx] at h
        simp only [Except.mapError, Except.ok.injEq] at h
        subst h
        obtain ⟨olen, hss⟩ := ctc_search_decode_singleton_inv m n
          (demoBeamParams a) a.spaceIx a.eosIx lm labels lens hx
        exact searchSample_shape m n (demoBeamParams a).beamWidth
          (demoBeamParams a).threshProb (lmApply lm (demoBeamParams a))
          a.spaceIx a.eosIx labels olen hss
    · rw [if_neg hg, if_neg hs] at h
      simp at h

/-- Claim C1: if the decode-mode selection is neither "greedy" nor
"search", the per-file pipeline fails with the UnsupportedMode condition,
invoking no decoder and producing no prediction row; and every file whose
pipeline succeeds had exactly one of the two decoders invoked. -/
theorem claim_C1 (a : Args) (env : Env) (noise : Option NoiseData)
    (lm : Option LMScorer) (file : String) :
    (∀ sNum cNum cType,
      parseFileInfo file.toList = Except.ok (sNum, cNum, cType) →
      (a.testDemoMode = "AO" ∨ a.testDemoMode = "VO" ∨
        a.testDemoMode = "AV") →
      a.testDemoDecoding ≠ "greedy" → a.testDemoDecoding ≠ "search" →
      processFile a env noise lm file =
        ([Effect.preprocess file, Effect.printMsg "Invalid Decode Scheme"],
         Except.error PyErr.unsupportedMode) ∧
      countDecodes (processFile a env noise lm file).1 = 0) ∧
    (∀ effs row, processFile a env noise lm file = (effs, Except.ok row) →
      countDecodes effs = 1) := by
  constructor
  · intro sNum cNum cType hp hmode hg hs
    have heq : processFile a env noise lm file =
        ([Effect.preprocess file, Effect.printMsg "Invalid Decode Scheme"],
         Except.error PyErr.unsupportedMode) := by
      rw [processFile_char a env noise lm file sNum cNum cType hp hmode,
        decodeDispatch_unsupported a lm _ _ hg hs]
    exact ⟨heq, by rw [heq]; rfl⟩
  · intro effs row h
    cases hp : parseFileInfo file.toList with
    | error e =>
      unfold processFile at h
      rw [hp] at h
      simp at h
    | ok info =>
      obtain ⟨sNum, cNum, cType⟩ := info
      by_cases hmode : a.testDemoMode = "AO" ∨ a.testDemoMode = "VO" ∨
          a.testDemoMode = "AV"
      · rw [processFile_char a env noise lm file sNum cNum cType hp hmode] at h
        cases hd : (decodeDispatch a lm
            [env.netSample a.testDemoMode (env.prepData noise file).1]
            [(env.prepData noise file).2]).2 with
        | error e =>
          rw [hd] at h
          simp at h
        | ok r =>
          obtain ⟨pb, pl⟩ := r
          rw [hd] at h
          have hone := decodeDispatch_count_one a lm
            [env.netSample a.testDemoMode (env.prepData noise file).1]
            [(env.prepData noise file).2] (pb, pl) hd
          have heffs : effs = Effect.preprocess file ::
              (decodeDispatch a lm
                [env.netSample a.testDemoMode (env.prepData noise file).1]
                [(env.prepData noise file).2]).1 ++
              [Effect.printMsg ("File: " ++ file),
               Effect.printMsg ("Speaker: " ++ String.mk [sNum] ++
                 "   Clip: " ++ String.mk cNum ++ "   Clip Type: " ++ cType),
               Effect.printMsg ("Prediction: " ++
                 String.join (pb.dropLast.map a.indexToChar))] := by
            have := congrArg Prod.fst h
            exact this.symm
          rw [heffs]
          simp only [countDecodes, List.cons_append, List.countP_cons,
            List.countP_append] at hone ⊢
          simp [Effect.isDecode, hone]
      · unfold processFile at h
        rw [hp] at h
        dsimp only at h
        rw [if_neg hmode] at h
        simp at h

/-- Claim C2: with a valid parse and operation mode, the greedy decoder
is invoked with exactly the posterior batch, the valid-length batch and
the EOS index, and the beam-search decoder with the posterior batch, the
valid-length batch, the parameter set of beamWidth, alpha, beta and
threshProb, the SPACE index, the EOS index and the optional language
model; the recorded invocation and the dispatch result carry exactly
those arguments, and each decoder returns a label sequence plus output
lengths. -/
theorem claim_C2 (a : Args) (env : Env) (noise : Option NoiseData)
    (lm : Option LMScorer) (file : String) (sNum : Char) (cNum : List Char)
    (cType : String)
    (hp : parseFileInfo file.toList = Except.ok (sNum, cNum, cType))
    (hmode : a.testDemoMode = "AO" ∨ a.testDemoMode = "VO" ∨
      a.testDemoMode = "AV") :
    (a.testDemoDecoding = "greedy" →
      Effect.decodeGreedy
          [env.netSample a.testDemoMode (env.prepData noise file).1]
          [(env.prepData noise file).2] a.eosIx
        ∈ (processFile a env noise lm file).1 ∧
      (decodeDispatch a lm
          [env.netSample a.testDemoMode (env.prepData noise file).1]
          [(env.prepData noise file).2]).2 =
        (ctc_greedy_decode
          [env.netSample a.testDemoMode (env.prepData noise file).1]
          [(env.prepData noise file).2] a.eosIx).mapError pyOfDecode) ∧
    (a.testDemoDecoding = "search" →
      Effect.decodeSearch
          [env.netSample a.testDemoMode (env.prepData noise file).1]
          [(env.prepData noise file).2]
          ⟨a.beamWidth, a.lmWeightAlpha, a.lengthPenaltyBeta,
            a.threshProbability⟩ a.spaceIx a.eosIx lm.isSome
        ∈ (processFile a env noise lm file).1 ∧
      (decodeDispatch a lm
          [env.netSample a.testDemoMode (env.prepData noise file).1]
          [(env.prepData noise file).2]).2 =
        (ctc_search_decode
          [env.netSample a.testDemoMode (env.prepData noise file).1]
          [(env.prepData noise file).2]
          ⟨a.beamWidth, a.lmWeightAlpha, a.lengthPenaltyBeta,
            a.threshProbability⟩ a.spaceIx a.eosIx lm).mapError
          pyOfDecode) := by
  have htrace : ∀ eff, eff ∈ (decodeDispatch a lm
      [env.netSample a.testDemoMode (env.prepData noise file).1]
      [(env.prepData noise file).2]).1 →
      eff ∈ (processFile a env noise lm file).1 := by
    intro eff heff
    rw [processFile_char a env noise lm file sNum cNum cType hp hmode]
    cases hd : (decodeDispatch a lm
        [env.netSample a.testDemoMode (env.prepData noise file).1]
        [(env.prepData noise file).2]).2 with
    | error e =>
      exact List.mem_cons_of_mem _ heff
    | ok r =>
      obtain ⟨pb, pl⟩ := r
      exact List.mem_cons_of_mem _ (List.mem_append_left _ heff)
  constructor
  · intro hg
    have hd1 : (decodeDispatch a lm
        [env.netSample a.testDemoMode (env.prepData noise file).1]
        [(env.prepData noise file).2]).1 =
        [Effect.decodeGreedy
          [env.netSample a.testDemoMode (env.prepData noise file).1]
          [(env.prepData noise file).2] a.eosIx] := by
      unfold decodeDispatch
      rw [if_pos hg]
    refine ⟨htrace _ ?_, ?_⟩
    · rw [hd1]
      exact List.mem_singleton.mpr rfl
    · unfold decodeDispatch
      rw [if_pos hg]
  · intro hs
    have hg : a.testDemoDecoding ≠ "greedy" := by
      rw [hs]
      decide
    have hd1 : (decodeDispatch a lm
        [env.netSample a.testDemoMode (env.prepData noise file).1]
        [(env.prepData noise file).2]).1 =
        [Effect.decodeSearch
          [env.netSample a.testDemoMode (env.prepData noise file).1]
          [(env.prepData noise file).2]
          ⟨a.beamWidth, a.lmWeightAlpha, a.lengthPenaltyBeta,
            a.threshProbability⟩ a.spaceIx a.eosIx lm.isSome] := by
      unfold decodeDispatch
      rw [if_neg hg, if_pos hs]
      rfl
    refine ⟨htrace _ ?_, ?_⟩
    · rw [hd1]
      exact List.mem_singleton.mpr rfl
    · unfold decodeDispatch
      rw [if_neg hg, if_pos hs]
      rfl

/-- Claim C4: whenever the per-file pipeline succeeds, the decoder's
returned label sequence ends with the EOS index as terminal marker, the
pipeline removes exactly that final element, and the prediction string is
the index-to-character image of the remaining labels — which never
contain the EOS index. -/
theorem claim_C4 (a : Args) (env : Env) (noise : Option NoiseData)
    (lm : Option LMScorer) (file : String) (effs : List Effect) (row : Row)
    (h : processFile a env noise lm file = (effs, Except.ok row)) :
    ∃ labels lens,
      (decodeDispatch a lm
        [env.netSample a.testDemoMode (env.prepData noise file).1]
        [(env.prepData noise file).2]).2 = Except.ok (labels, lens) ∧
      labels = labels.dropLast ++ [a.eosIx] ∧
      a.eosIx ∉ labels.dropLast ∧
      row.pred = String.join (labels.dropLast.map a.indexToChar) := by
  cases hp : parseFileInfo file.toList with
  | error e =>
    unfold processFile at h
    rw [hp] at h
    simp at h
  | ok info =>
    obtain ⟨sNum, cNum, cType⟩ := info
    by_cases hmode : a.testDemoMode = "AO" ∨ a.testDemoMode = "VO" ∨
        a.testDemoMode = "AV"
    · rw [processFile_char a env noise lm file sNum cNum cType hp hmode] at h
      cases hd : (decodeDispatch a lm
          [env.netSample a.testDemoMode (env.prepData noise file).1]
          [(env.prepData noise file).2]).2 with
      | error e =>
        rw [hd] at h
        simp at h
      | ok r =>
        obtain ⟨pb, pl⟩ := r
        rw [hd] at h
        have hrow : row = ⟨String.mk [sNum], String.mk cNum, cType,
            String.join (pb.dropLast.map a.indexToChar)⟩ := by
          have := congrArg Prod.snd h
          simp only [Except.ok.injEq] at this
          exact this.symm
        obtain ⟨hsh1, hsh2⟩ := decodeDispatch_ok_shape a lm
          (env.netSample a.testDemoMode (env.prepData noise file).1)
          (env.prepData noise file).2 pb pl hd
        exact ⟨pb, pl, rfl, hsh1, hsh2, by rw [hrow]⟩
    · unfold processFile at h
      rw [hp] at h
      dsimp only at h
      rw [if_neg hmode] at h
      simp at h

/-- Claim C3: absence of the language model is a valid configuration —
with USE_LM unset the demo passes None as the language model, the
beam-search decoder still completes on any valid input producing a label
sequence, and without a scorer the alpha and beta parameters contribute
nothing to the result. -/
theorem claim_C3 (a : Args) (env : Env) (out : List (List (List PVal)))
    (lens : List Nat) (bw alph1 alph2 : Nat) (bet1 bet2 tp : ℚ)
    (spaceIx eosIx : Nat) :
    (a.useLM = false → demoLM a env = none) ∧
    (batchValidB out = true → 1 ≤ bw → tp ≤ 1 →
      ∃ ls ols, ctc_search_decode out lens ⟨bw, alph1, bet1, tp⟩
        spaceIx eosIx none = Except.ok (ls, ols)) ∧
    ctc_search_decode out lens ⟨bw, alph1, bet1, tp⟩ spaceIx eosIx none =
      ctc_search_decode out lens ⟨bw, alph2, bet2, tp⟩ spaceIx eosIx none := by
  refine ⟨?_, ?_, ?_⟩
  · intro h
    unfold demoLM
    rw [h]
    rfl
  · intro hv hbw htp
    exact ctc_search_decode_ok out lens ⟨bw, alph1, bet1, tp⟩ spaceIx eosIx
      none hv hbw htp
  · refine ctc_search_decode_congr out lens ⟨bw, alph1, bet1, tp⟩
      ⟨bw, alph2, bet2, tp⟩ spaceIx eosIx none none rfl rfl ?_
    funext w
    rfl

/-- Claim C6: batch items are decoded independently with no cross-item
state — every decoder invocation the pipeline records receives a batch of
exactly one posterior matrix and one valid length (the collated singleton
for the current file), and the pipeline's outcome depends only on the
current file's prepared sample, its network output and the shared
configuration. -/
theorem claim_C6 (a : Args) (env env2 : Env) (noise : Option NoiseData)
    (lm : Option LMScorer) (file : String) :
    (∀ o l e, Effect.decodeGreedy o l e ∈ (processFile a env noise lm file).1 →
      o.length = 1 ∧ l.length = 1) ∧
    (∀ o l p sp e b,
      Effect.decodeSearch o l p sp e b ∈ (processFile a env noise lm file).1 →
      o.length = 1 ∧ l.length = 1) ∧
    (env.prepData noise file = env2.prepData noise file →
     (∀ x, env.netSample a.testDemoMode x = env2.netSample a.testDemoMode x) →
     processFile a env noise lm file = processFile a env2 noise lm file) := by
  refine ⟨?_, ?_, ?_⟩
  · intro o l e h
    rcases processFile_trace_decomp a env noise lm file _ h with h' | h'
    · obtain ⟨ho, hl⟩ := decodeDispatch_greedy_origin a lm _ _ o l e h'
      rw [ho, hl]
      exact ⟨rfl, rfl⟩
    · simp [Effect.isDecode] at h'
  · intro o l p sp e b h
    rcases processFile_trace_decomp a env noise lm file _ h with h' | h'
    · obtain ⟨ho, hl⟩ := decodeDispatch_search_origin a lm _ _ o l p sp e b h'
      rw [ho, hl]
      exact ⟨rfl, rfl⟩
    · simp [Effect.isDecode] at h'
  · intro hprep hnet
    have hnet' : env.netSample a.testDemoMode = env2.netSample a.testDemoMode :=
      funext hnet
    unfold processFile
    rw [hprep, hnet']

/-! ## Concrete fixtures for the witnesses -/

/-- One-hot rows over a four-symbol alphabet (blank 0, letter 1,
space 2, EOS 3). -/
def wRow1 : List PVal := [PVal.val 0, PVal.val 1, PVal.val 0, PVal.val 0]

/-- One-hot row selecting the EOS symbol. -/
def wRow3 : List PVal := [PVal.val 0, PVal.val 0, PVal.val 0, PVal.val 1]

/-- A two-step posterior matrix whose arg-max path is letter then EOS. -/
def wMat : List (List PVal) := [wRow1, wRow3]

/-- A demo-directory file name of the shape the demo parses. -/
def wFile : String := "0037_P_S029_part1_base.mp4"

/-- A concrete environment: one file, trivial preprocessing with input
length 2, a constant network emitting `wMat`, a unit language model. -/
def wEnvA : Env := ⟨[wFile], fun _ _ => ([], 2), fun _ _ => wMat,
  fun _ => 1, []⟩

/-- A concrete index-to-character mapping. -/
def wIxChar (n : Nat) : String :=
  if n = 1 then "A" else if n = 2 then "B" else "?"

/-- Concrete configuration decoding greedily. -/
def wArgsG : Args :=
  ⟨some "model.pt", "demo", false, false, "AV", "greedy", 2, 1, 1, 1, 2, 3,
   wIxChar⟩

/-- Concrete configuration decoding by beam search. -/
def wArgsS : Args :=
  ⟨some "model.pt", "demo", false, false, "AV", "search", 2, 1, 1, 1, 2, 3,
   wIxChar⟩

/-- Concrete configuration with an unsupported decode scheme. -/
def wArgsX : Args :=
  ⟨some "model.pt", "demo", false, false, "AV", "viterbi", 2, 1, 1, 1, 2, 3,
   wIxChar⟩

/-- Witness for C1: the unsupported scheme fails with UnsupportedMode and
no decoder call; the greedy run invokes exactly one decoder. -/
theorem claim_C1_witness :
    (processFile wArgsX wEnvA none none wFile =
       ([Effect.preprocess wFile, Effect.printMsg "Invalid Decode Scheme"],
        Except.error PyErr.unsupportedMode) ∧
     countDecodes (processFile wArgsX wEnvA none none wFile).1 = 0) ∧
    countDecodes (processFile wArgsG wEnvA none none wFile).1 = 1 :=
  ⟨(claim_C1 wArgsX wEnvA none none wFile).1 'S' ['p'] "base"
      (by with_unfolding_all rfl) (Or.inr (Or.inr rfl))
      (by with_unfolding_all decide) (by with_unfolding_all decide),
   (claim_C1 wArgsG wEnvA none none wFile).2 _ _ (by with_unfolding_all rfl)⟩

/-- Witness for C2: both decoder invocations appear in the trace with
their exact argument batches. -/
theorem claim_C2_witness :
    Effect.decodeGreedy [wMat] [2] 3 ∈
      (processFile wArgsG wEnvA none none wFile).1 ∧
    Effect.decodeSearch [wMat] [2] ⟨2, 1, 1, 1⟩ 2 3 false ∈
      (processFile wArgsS wEnvA none none wFile).1 :=
  ⟨((claim_C2 wArgsG wEnvA none none wFile 'S' ['p'] "base"
      (by with_unfolding_all rfl) (Or.inr (Or.inr rfl))).1 rfl).1,
   ((claim_C2 wArgsS wEnvA none none wFile 'S' ['p'] "base"
      (by with_unfolding_all rfl) (Or.inr (Or.inr rfl))).2 rfl).1⟩

/-- Witness for C3 on a concrete valid batch: the language model is
absent, the decode completes, and alpha/beta do not affect the result. -/
theorem claim_C3_witness :
    demoLM wArgsS wEnvA = none ∧
    (∃ ls ols, ctc_search_decode [wMat] [2] ⟨2, 1, 1, 1⟩ 2 3 none =
      Except.ok (ls, ols)) ∧
    ctc_search_decode [wMat] [2] ⟨2, 1, 1, 1⟩ 2 3 none =
      ctc_search_decode [wMat] [2] ⟨2, 5, 9, 1⟩ 2 3 none := by
  obtain ⟨h1, h2, h3⟩ := claim_C3 wArgsS wEnvA [wMat] [2] 2 1 5 1 9 1 2 3
  exact ⟨h1 rfl,
    h2 (by with_unfolding_all decide) (by decide)
      (by with_unfolding_all decide), h3⟩

/-- Witness for C4 on the greedy run: the decoded labels end in EOS, the
stripped labels are EOS-free, and the prediction string is their
character image. -/
theorem claim_C4_witness :
    ∃ labels lens,
      (decodeDispatch wArgsG none [wMat] [2]).2 = Except.ok (labels, lens) ∧
      labels = labels.dropLast ++ [3] ∧ (3 : Nat) ∉ labels.dropLast ∧
      (⟨"S", "p", "base", "A"⟩ : Row).pred =
        String.join (labels.dropLast.map wArgsG.indexToChar) :=
  claim_C4 wArgsG wEnvA none none wFile _ _ (by with_unfolding_all rfl)

/-- Witness for C6: the recorded decoder batch is a singleton, and two
environments agreeing on the current file yield identical pipelines. -/
theorem claim_C6_witness :
    (([wMat] : List (List (List PVal))).length = 1 ∧
     ([2] : List Nat).length = 1) ∧
    processFile wArgsG wEnvA none none wFile =
      processFile wArgsG wEnvA none none wFile :=
  ⟨(claim_C6 wArgsG wEnvA wEnvA none none wFile).1 [wMat] [2] 3
      (by with_unfolding_all decide),
   (claim_C6 wArgsG wEnvA wEnvA none none wFile).2.2 rfl (fun _ => rfl)⟩

/-- Witness for C9: a seven-character .mp4 name fails with IndexError
before any effect. -/
theorem claim_C9_witness :
    parseFileInfo "abc.mp4".toList = Except.error PyErr.indexError ∧
    processFile wArgsG wEnvA none none "abc.mp4" =
      ([], Except.error PyErr.indexError) :=
  claim_C9 wArgsG wEnvA none none "abc.mp4"
    (by with_unfolding_all decide) (by with_unfolding_all rfl)

end DeepAVSR
